import Mathlib

/-
Verification development for the CFA (color filter array) forward-model
operator.  Arrays of the source are embedded as index functions together
with explicit dimension sizes; the float entries are embedded as exact
rationals.  Elementwise multiplication follows the numpy broadcasting
rule axis by axis (dimensions agree, or one of them is 1).
-/

/-- Rank-3 array: three dimension sizes and a total valuation function.
Indices outside the dimensions are irrelevant to every statement below. -/
structure Arr3 where
  d0 : ℕ
  d1 : ℕ
  d2 : ℕ
  val : ℕ → ℕ → ℕ → ℚ

/-- Rank-2 array. -/
structure Arr2 where
  d0 : ℕ
  d1 : ℕ
  val : ℕ → ℕ → ℚ

/-- Dimension triple of a rank-3 array. -/
def dims3 (a : Arr3) : ℕ × ℕ × ℕ := (a.d0, a.d1, a.d2)

/-- Dimension pair of a rank-2 array. -/
def dims2 (a : Arr2) : ℕ × ℕ := (a.d0, a.d1)

/-- Broadcast of two dimension sizes, numpy rule: equal sizes broadcast to
themselves, a size of 1 broadcasts to the other size, anything else fails. -/
def bdim (a b : ℕ) : Option ℕ :=
  if a = b then some a else if a = 1 then some b else if b = 1 then some a else none

/-- Reading index along an axis of size d under broadcasting: an axis of
size 1 is always read at 0. -/
def bidx (d i : ℕ) : ℕ := if d = 1 then 0 else i

/-- Elementwise product of two rank-3 arrays under numpy broadcasting;
none when the shapes are not broadcast-compatible. -/
def mul3 (a b : Arr3) : Option Arr3 :=
  match bdim a.d0 b.d0, bdim a.d1 b.d1, bdim a.d2 b.d2 with
  | some e0, some e1, some e2 =>
      some ⟨e0, e1, e2, fun i j k =>
        a.val (bidx a.d0 i) (bidx a.d1 j) (bidx a.d2 k)
          * b.val (bidx b.d0 i) (bidx b.d1 j) (bidx b.d2 k)⟩
  | _, _, _ => none

/-- Sum of a rank-3 array along its last axis (np.sum with axis 2). -/
def sum_axis2 (a : Arr3) : Arr2 :=
  ⟨a.d0, a.d1, fun i j => ∑ k in Finset.range a.d2, a.val i j k⟩

/-- Insertion of a trailing axis of size 1 (the y[..., np.newaxis] of the
source's adjoint). -/
def newaxis2 (y : Arr2) : Arr3 := ⟨y.d0, y.d1, 1, fun i j _ => y.val i j⟩

/-- Translation of cfa_operator.direct: np.sum(x * self.cfa_mask, axis=2). -/
def direct (cfa_mask x : Arr3) : Option Arr2 := (mul3 x cfa_mask).map sum_axis2

/-- Translation of cfa_operator.adjoint: self.cfa_mask * y[..., np.newaxis]. -/
def adjoint (cfa_mask : Arr3) (y : Arr2) : Option Arr3 := mul3 cfa_mask (newaxis2 y)

lemma bdim_self (a : ℕ) : bdim a a = some a := by simp [bdim]

lemma bdim_one_right (a : ℕ) : bdim a 1 = some a := by
  unfold bdim
  by_cases h : a = 1 <;> simp [h]

lemma bidx_of_lt {d i : ℕ} (h : i < d) : bidx d i = i := by
  unfold bidx
  split <;> omega

lemma mul3_eq (a b : Arr3) (H W C : ℕ) (ha : dims3 a = (H, W, C)) (hb : dims3 b = (H, W, C)) :
    mul3 a b = some ⟨H, W, C, fun i j k =>
      a.val (bidx H i) (bidx W j) (bidx C k) * b.val (bidx H i) (bidx W j) (bidx C k)⟩ := by
  obtain ⟨a0, a1, a2, av⟩ := a
  obtain ⟨b0, b1, b2, bv⟩ := b
  simp only [dims3, Prod.mk.injEq] at ha hb
  obtain ⟨rfl, rfl, rfl⟩ := ha
  obtain ⟨rfl, rfl, rfl⟩ := hb
  simp [mul3, bdim_self]

lemma direct_eq (mask x : Arr3) (H W C : ℕ)
    (hm : dims3 mask = (H, W, C)) (hx : dims3 x = (H, W, C)) :
    direct mask x = some ⟨H, W, fun i j => ∑ k in Finset.range C,
      x.val (bidx H i) (bidx W j) (bidx C k) * mask.val (bidx H i) (bidx W j) (bidx C k)⟩ := by
  rw [direct, mul3_eq x mask H W C hx hm]
  rfl

lemma adjoint_eq (mask : Arr3) (y : Arr2) (H W C : ℕ)
    (hm : dims3 mask = (H, W, C)) (hy : dims2 y = (H, W)) :
    adjoint mask y = some ⟨H, W, C, fun i j k =>
      mask.val (bidx H i) (bidx W j) (bidx C k) * y.val (bidx H i) (bidx W j)⟩ := by
  obtain ⟨m0, m1, m2, mv⟩ := mask
  obtain ⟨y0, y1, yv⟩ := y
  simp only [dims3, dims2, Prod.mk.injEq] at hm hy
  obtain ⟨rfl, rfl, rfl⟩ := hm
  obtain ⟨rfl, rfl⟩ := hy
  simp [adjoint, mul3, newaxis2, bdim_self, bdim_one_right, bidx]

/-- C2: for a mask of shape (H,W,C) and an input x of shape (H,W,C), direct
succeeds, its result has shape (H,W), and the entry at every pixel (i,j) is
the inner product of the spectral vector of x with the mask vector there. -/
theorem C2_direct_pixelwise_inner_product (H W C : ℕ) (mask x : Arr3)
    (hm : dims3 mask = (H, W, C)) (hx : dims3 x = (H, W, C)) :
    ∃ y : Arr2, direct mask x = some y ∧ dims2 y = (H, W) ∧
      ∀ i j, i < H → j < W →
        y.val i j = ∑ k in Finset.range C, x.val i j k * mask.val i j k := by
  refine ⟨_, direct_eq mask x H W C hm hx, rfl, ?_⟩
  intro i j hi hj
  simp only [bidx_of_lt hi, bidx_of_lt hj]
  refine Finset.sum_congr rfl fun k hk => ?_
  rw [Finset.mem_range] at hk
  rw [bidx_of_lt hk]

/-- C2 witness at a concrete 1-by-2-by-2 mask and input. -/
theorem C2_direct_pixelwise_inner_product_witness :
    dims3 ⟨1, 2, 2, fun _ j k => (j + 2 * k : ℚ)⟩ = (1, 2, 2) ∧
    dims3 ⟨1, 2, 2, fun _ j k => (1 + j + k : ℚ)⟩ = (1, 2, 2) ∧
    (∃ y : Arr2, direct ⟨1, 2, 2, fun _ j k => (j + 2 * k : ℚ)⟩
        ⟨1, 2, 2, fun _ j k => (1 + j + k : ℚ)⟩ = some y ∧ dims2 y = (1, 2) ∧
      ∀ i j, i < 1 → j < 2 →
        y.val i j = ∑ k in Finset.range 2,
          (⟨1, 2, 2, fun _ j k => (1 + j + k : ℚ)⟩ : Arr3).val i j k
            * (⟨1, 2, 2, fun _ j k => (j + 2 * k : ℚ)⟩ : Arr3).val i j k) :=
  ⟨rfl, rfl, C2_direct_pixelwise_inner_product 1 2 2 _ _ rfl rfl⟩

/-- C1: for a mask of shape (H,W,C), an input cube x of shape (H,W,C) and a
mosaic image y of shape (H,W), the Euclidean inner products agree:
the sum over pixels of direct(x)*y equals the sum over voxels of
x*adjoint(y), i.e. adjoint is the exact transpose of direct. -/
theorem C1_adjoint_is_transpose_of_direct (H W C : ℕ) (mask x : Arr3) (y : Arr2)
    (hm : dims3 mask = (H, W, C)) (hx : dims3 x = (H, W, C)) (hy : dims2 y = (H, W)) :
    ∃ dx ay, direct mask x = some dx ∧ adjoint mask y = some ay ∧
      (∑ i in Finset.range H, ∑ j in Finset.range W, dx.val i j * y.val i j)
        = ∑ i in Finset.range H, ∑ j in Finset.range W, ∑ k in Finset.range C,
            x.val i j k * ay.val i j k := by
  refine ⟨_, _, direct_eq mask x H W C hm hx, adjoint_eq mask y H W C hm hy, ?_⟩
  refine Finset.sum_congr rfl fun i hi => Finset.sum_congr rfl fun j hj => ?_
  rw [Finset.mem_range] at hi hj
  simp only [bidx_of_lt hi, bidx_of_lt hj]
  rw [Finset.sum_mul]
  refine Finset.sum_congr rfl fun k hk => ?_
  rw [Finset.mem_range] at hk
  rw [bidx_of_lt hk]
  ring

/-- C1 witness at a concrete 1-by-1-by-2 operator. -/
theorem C1_adjoint_is_transpose_of_direct_witness :
    dims3 ⟨1, 1, 2, fun _ _ k => (k + 1 : ℚ)⟩ = (1, 1, 2) ∧
    dims3 ⟨1, 1, 2, fun _ _ k => (3 - k : ℚ)⟩ = (1, 1, 2) ∧
    dims2 ⟨1, 1, fun _ _ => (5 : ℚ)⟩ = (1, 1) ∧
    (∃ dx ay, direct ⟨1, 1, 2, fun _ _ k => (k + 1 : ℚ)⟩
        ⟨1, 1, 2, fun _ _ k => (3 - k : ℚ)⟩ = some dx ∧
      adjoint ⟨1, 1, 2, fun _ _ k => (k + 1 : ℚ)⟩ ⟨1, 1, fun _ _ => (5 : ℚ)⟩ = some ay ∧
      (∑ i in Finset.range 1, ∑ j in Finset.range 1,
          dx.val i j * (⟨1, 1, fun _ _ => (5 : ℚ)⟩ : Arr2).val i j)
        = ∑ i in Finset.range 1, ∑ j in Finset.range 1, ∑ k in Finset.range 2,
            (⟨1, 1, 2, fun _ _ k => (3 - k : ℚ)⟩ : Arr3).val i j k * ay.val i j k) :=
  ⟨rfl, rfl, rfl, C1_adjoint_is_transpose_of_direct 1 1 2 _ _ _ rfl rfl rfl⟩

/-
Mosaic mask construction.  Each source builder starts from a mask in which
every pixel holds the default band's response vector (np.kron of a ones
grid with the vector) and then performs a sequence of strided slice
assignments mask[ro::rp, co::cp] = vec.  A slice assignment is embedded as
an Assign record, and the whole builder as a left fold over the assignment
list in declaration order.
-/

/-- Strided slice assignment mask[ro::rp, co::cp] = vec. -/
structure Assign where
  ro : ℕ
  co : ℕ
  rp : ℕ
  cp : ℕ
  vec : ℕ → ℚ

/-- Membership of pixel (r,c) in the strided slice [ro::rp, co::cp]. -/
def hitsB (a : Assign) (r c : ℕ) : Bool :=
  decide (a.ro ≤ r) && decide ((r - a.ro) % a.rp = 0)
    && decide (a.co ≤ c) && decide ((c - a.co) % a.cp = 0)

/-- Effect of one slice assignment on the mask. -/
def applyAssign (m : ℕ → ℕ → ℕ → ℚ) (a : Assign) : ℕ → ℕ → ℕ → ℚ :=
  fun r c k => if hitsB a r c then a.vec k else m r c k

/-- Mask produced by broadcasting the default vector to every pixel and
then applying the slice assignments in declaration order. -/
def buildMask (dflt : ℕ → ℚ) (assigns : List Assign) : ℕ → ℕ → ℕ → ℚ :=
  assigns.foldl applyAssign (fun _ _ => dflt)

/-- Response vector a pixel ends up with: the vector of the last assignment
whose slice hits the pixel, or the default vector when none hits. -/
def lastResp (dflt : ℕ → ℚ) (assigns : List Assign) (r c : ℕ) : ℕ → ℚ :=
  match (assigns.filter (fun a => hitsB a r c)).getLast? with
  | some a => a.vec
  | none => dflt

lemma foldl_applyAssign (assigns : List Assign) :
    ∀ (m : ℕ → ℕ → ℕ → ℚ) (r c k : ℕ),
      (assigns.foldl applyAssign m) r c k =
        match (assigns.filter (fun a => hitsB a r c)).getLast? with
        | some a => a.vec k
        | none => m r c k := by
  induction assigns with
  | nil => intro m r c k; rfl
  | cons a t ih =>
      intro m r c k
      rw [List.foldl_cons, ih (applyAssign m a) r c k, List.filter_cons]
      by_cases hp : hitsB a r c
      · simp only [hp, if_true]
        cases hft : t.filter (fun a => hitsB a r c) with
        | nil => simp [applyAssign, hp]
        | cons b l =>
            rw [List.getLast?_cons_cons]
            cases hgl : (b :: l).getLast? with
            | none => simp [List.getLast?_eq_none_iff] at hgl
            | some d => rfl
      · simp only [hp, if_false]
        cases hft : t.filter (fun a => hitsB a r c) with
        | nil => simp [applyAssign, hp]
        | cons b l =>
            cases hgl : (b :: l).getLast? with
            | none => simp [List.getLast?_eq_none_iff] at hgl
            | some d => simp [hgl]

lemma buildMask_eq_lastResp (dflt : ℕ → ℚ) (assigns : List Assign) (r c k : ℕ) :
    buildMask dflt assigns r c k = lastResp dflt assigns r c k := by
  rw [buildMask, foldl_applyAssign, lastResp]
  cases (assigns.filter (fun a => hitsB a r c)).getLast? <;> rfl

/-- C5: in any mask built from a default response and an ordered list of
strided assignments (which covers every cataloged builder of the source,
quad_bayer and kodak included, at any spatial shape, multiple of the tile
period or not), every pixel's spectral vector equals the response of the
last assignment in declaration order whose stride hits the pixel, or the
default response when no assignment hits it; in particular it is always one
of the response vectors used in the build, never a blended value. -/
theorem C5_every_pixel_is_one_response (dflt : ℕ → ℚ) (assigns : List Assign) (r c : ℕ) :
    (∀ k, buildMask dflt assigns r c k = lastResp dflt assigns r c k) ∧
    ((assigns.filter (fun a => hitsB a r c)) = [] →
      ∀ k, buildMask dflt assigns r c k = dflt k) ∧
    (∀ a, (assigns.filter (fun a => hitsB a r c)).getLast? = some a →
      a ∈ assigns ∧ hitsB a r c = true ∧ ∀ k, buildMask dflt assigns r c k = a.vec k) ∧
    ((∀ k, buildMask dflt assigns r c k = dflt k) ∨
      ∃ a ∈ assigns, hitsB a r c = true ∧ ∀ k, buildMask dflt assigns r c k = a.vec k) := by
  have base : ∀ k, buildMask dflt assigns r c k = lastResp dflt assigns r c k :=
    fun k => buildMask_eq_lastResp dflt assigns r c k
  have hnil : (assigns.filter (fun a => hitsB a r c)) = [] →
      ∀ k, buildMask dflt assigns r c k = dflt k := by
    intro hf k
    rw [base k, lastResp, hf]
    rfl
  have hsome : ∀ a, (assigns.filter (fun a => hitsB a r c)).getLast? = some a →
      a ∈ assigns ∧ hitsB a r c = true ∧ ∀ k, buildMask dflt assigns r c k = a.vec k := by
    intro a ha
    obtain ⟨l1, hl1⟩ := List.getLast?_eq_some_iff.mp ha
    have hmem : a ∈ assigns.filter (fun a => hitsB a r c) := by
      rw [hl1]
      exact List.mem_append_right l1 (List.mem_singleton_self a)
    rw [List.mem_filter] at hmem
    refine ⟨hmem.1, hmem.2, fun k => ?_⟩
    rw [base k, lastResp, ha]
  refine ⟨base, hnil, hsome, ?_⟩
  cases hg : (assigns.filter (fun a => hitsB a r c)).getLast? with
  | none =>
      left
      exact hnil (List.getLast?_eq_none_iff.mp hg)
  | some a =>
      right
      obtain ⟨h1, h2, h3⟩ := hsome a hg
      exact ⟨a, h1, h2, h3⟩

/-- Band identifier as used by get_rgbp_bands: a band name (dirac source)
or an index into a stored response table. -/
abbrev BandId := String ⊕ ℕ

/-- Translation of get_rgbp_bands: positions of the red, green, blue and
panchromatic bands for the two recognized sources; none models the
implicit None returned by the Python function on any other source. -/
def get_rgbp_bands (file_name : String) : Option (BandId × BandId × BandId × BandId) :=
  if file_name = "dirac" then
    some (Sum.inl "red", Sum.inl "green", Sum.inl "blue", Sum.inl "pan")
  else if file_name = "WV34bands_Spectral_Responses.npz" then
    some (Sum.inr 2, Sum.inr 1, Sum.inr 0, Sum.inr 4)
  else none

/-- Modelled from the spec: get_filter_response is defined in
src/operators/misc/spectral_responses/get_spectral_responses.py, a file
that is not among the given sources.  Per spec section 4.1 it is a
deterministic function of (stencil, source, band) returning a response
vector of length len(stencil); the synthetic source "dirac" yields one-hot
indicator responses for the named bands red/green/blue plus an all-pass
panchromatic band, a named external table is addressed by integer band
index, and any other band or source fails with a lookup error.  The
concrete entries of the external table are not fixed by the spec and no
claim depends on them; they are modelled as zeros. -/
def get_filter_response (stencil : List ℚ) (file : String) (band : BandId) :
    Except String (ℕ → ℚ) :=
  if file = "dirac" then
    match band with
    | Sum.inl s =>
        if s = "red" then .ok (fun k => if k = 0 then 1 else 0)
        else if s = "green" then .ok (fun k => if k = 1 then 1 else 0)
        else if s = "blue" then .ok (fun k => if k = 2 then 1 else 0)
        else if s = "pan" then .ok (fun _ => 1)
        else .error s
    | Sum.inr _ => .error "unknown band"
  else if file = "WV34bands_Spectral_Responses.npz" then
    match band with
    | Sum.inr i => if i < 5 then .ok (fun _ => 0) else .error "unknown band"
    | Sum.inl s => .error s
  else .error file

/-- Pixel layout of get_bayer_GRBG_mask: green default, red on [::2, 1::2],
blue on [1::2, ::2]. -/
def get_bayer_GRBG_layout (rf gf bf : ℕ → ℚ) : ℕ → ℕ → ℕ → ℚ :=
  buildMask gf [⟨0, 1, 2, 2, rf⟩, ⟨1, 0, 2, 2, bf⟩]

/-- Pixel layout of get_bayer_RGGB_mask: green default, red on [::2, ::2],
blue on [1::2, 1::2]. -/
def get_bayer_RGGB_layout (rf gf bf : ℕ → ℚ) : ℕ → ℕ → ℕ → ℚ :=
  buildMask gf [⟨0, 0, 2, 2, rf⟩, ⟨1, 1, 2, 2, bf⟩]

/-- Pixel layout of get_quad_mask: green default, red on the four slices
[::4, 2::4], [::4, 3::4], [1::4, 2::4], [1::4, 3::4], blue on
[2::4, ::4], [2::4, 1::4], [3::4, ::4], [3::4, 1::4]. -/
def get_quad_layout (rf gf bf : ℕ → ℚ) : ℕ → ℕ → ℕ → ℚ :=
  buildMask gf
    [⟨0, 2, 4, 4, rf⟩, ⟨0, 3, 4, 4, rf⟩, ⟨1, 2, 4, 4, rf⟩, ⟨1, 3, 4, 4, rf⟩,
     ⟨2, 0, 4, 4, bf⟩, ⟨2, 1, 4, 4, bf⟩, ⟨3, 0, 4, 4, bf⟩, ⟨3, 1, 4, 4, bf⟩]

/-- Pixel layout of get_sparse_3_mask: pan default, red on [::8, ::8],
green on [::8, 4::8] and [4::8, ::8], blue on [4::8, 4::8]. -/
def get_sparse_3_layout (rf gf bf pf : ℕ → ℚ) : ℕ → ℕ → ℕ → ℚ :=
  buildMask pf
    [⟨0, 0, 8, 8, rf⟩, ⟨0, 4, 8, 8, gf⟩, ⟨4, 0, 8, 8, gf⟩, ⟨4, 4, 8, 8, bf⟩]

/-- Pixel layout of get_kodak_mask: pan default, then the red, green and
blue slice assignments of the source in declaration order. -/
def get_kodak_layout (rf gf bf pf : ℕ → ℚ) : ℕ → ℕ → ℕ → ℚ :=
  buildMask pf
    [⟨3, 2, 4, 4, rf⟩, ⟨2, 3, 4, 4, rf⟩,
     ⟨3, 0, 4, 4, gf⟩, ⟨2, 1, 4, 4, gf⟩, ⟨1, 2, 4, 4, gf⟩, ⟨0, 3, 4, 4, gf⟩,
     ⟨1, 0, 4, 4, bf⟩, ⟨0, 1, 4, 4, bf⟩]

/-- Pixel layout of get_sony_mask: pan default, then the red, green and
blue slice assignments of the source in declaration order. -/
def get_sony_layout (rf gf bf pf : ℕ → ℚ) : ℕ → ℕ → ℕ → ℚ :=
  buildMask pf
    [⟨2, 3, 4, 4, rf⟩, ⟨0, 1, 4, 4, rf⟩,
     ⟨3, 0, 4, 4, gf⟩, ⟨2, 1, 4, 4, gf⟩, ⟨1, 2, 4, 4, gf⟩, ⟨0, 3, 4, 4, gf⟩,
     ⟨3, 2, 4, 4, bf⟩, ⟨1, 0, 4, 4, bf⟩]

/-- Translation of get_bayer_GRBG_mask: resolves the red, green, blue
responses and builds an (H, W, len(stencil)) mask over the GRBG layout. -/
def get_bayer_GRBG_mask (input_shape : ℕ × ℕ × ℕ) (stencil : List ℚ) (file : String) :
    Except String Arr3 :=
  match get_rgbp_bands file with
  | none => .error "TypeError"
  | some (br, bg, bb, _) => do
      let rf ← get_filter_response stencil file br
      let gf ← get_filter_response stencil file bg
      let bf ← get_filter_response stencil file bb
      pure ⟨input_shape.1, input_shape.2.1, stencil.length, get_bayer_GRBG_layout rf gf bf⟩

/-- Translation of get_bayer_RGGB_mask. -/
def get_bayer_RGGB_mask (input_shape : ℕ × ℕ × ℕ) (stencil : List ℚ) (file : String) :
    Except String Arr3 :=
  match get_rgbp_bands file with
  | none => .error "TypeError"
  | some (br, bg, bb, _) => do
      let rf ← get_filter_response stencil file br
      let gf ← get_filter_response stencil file bg
      let bf ← get_filter_response stencil file bb
      pure ⟨input_shape.1, input_shape.2.1, stencil.length, get_bayer_RGGB_layout rf gf bf⟩

/-- Translation of get_quad_mask. -/
def get_quad_mask (input_shape : ℕ × ℕ × ℕ) (stencil : List ℚ) (file : String) :
    Except String Arr3 :=
  match get_rgbp_bands file with
  | none => .error "TypeError"
  | some (br, bg, bb, _) => do
      let rf ← get_filter_response stencil file br
      let gf ← get_filter_response stencil file bg
      let bf ← get_filter_response stencil file bb
      pure ⟨input_shape.1, input_shape.2.1, stencil.length, get_quad_layout rf gf bf⟩

/-- Translation of get_sparse_3_mask. -/
def get_sparse_3_mask (input_shape : ℕ × ℕ × ℕ) (stencil : List ℚ) (file : String) :
    Except String Arr3 :=
  match get_rgbp_bands file with
  | none => .error "TypeError"
  | some (br, bg, bb, bp) => do
      let rf ← get_filter_response stencil file br
      let gf ← get_filter_response stencil file bg
      let bf ← get_filter_response stencil file bb
      let pf ← get_filter_response stencil file bp
      pure ⟨input_shape.1, input_shape.2.1, stencil.length, get_sparse_3_layout rf gf bf pf⟩

/-- Translation of get_kodak_mask. -/
def get_kodak_mask (input_shape : ℕ × ℕ × ℕ) (stencil : List ℚ) (file : String) :
    Except String Arr3 :=
  match get_rgbp_bands file with
  | none => .error "TypeError"
  | some (br, bg, bb, bp) => do
      let rf ← get_filter_response stencil file br
      let gf ← get_filter_response stencil file bg
      let bf ← get_filter_response stencil file bb
      let pf ← get_filter_response stencil file bp
      pure ⟨input_shape.1, input_shape.2.1, stencil.length, get_kodak_layout rf gf bf pf⟩

/-- Translation of get_sony_mask. -/
def get_sony_mask (input_shape : ℕ × ℕ × ℕ) (stencil : List ℚ) (file : String) :
    Except String Arr3 :=
  match get_rgbp_bands file with
  | none => .error "TypeError"
  | some (br, bg, bb, bp) => do
      let rf ← get_filter_response stencil file br
      let gf ← get_filter_response stencil file bg
      let bf ← get_filter_response stencil file bb
      let pf ← get_filter_response stencil file bp
      pure ⟨input_shape.1, input_shape.2.1, stencil.length, get_sony_layout rf gf bf pf⟩

/-- State of a constructed cfa_operator instance.  cfa_mask is an Option
because the Python constructor assigns the attribute only inside the
dispatch branches: for an unmatched pattern name the attribute is simply
never set, which is embedded as none. -/
structure cfa_operator where
  cfa : String
  name : String
  cfa_mask : Option Arr3
  input_shape : ℕ × ℕ × ℕ
  output_shape : ℕ × ℕ

/-- Failure modes of construction: an unresolved Python name (NameError)
or an error propagated from the response provider (LookupError family). -/
inductive InitError where
  | nameError (missing : String)
  | lookupError (msg : String)
deriving DecidableEq

/-- Resolution of the optional display name, 'CFA' if name is None. -/
def resolve_name (nm : Option String) : String :=
  match nm with
  | none => "CFA"
  | some s => s

/-- Names bound at module level by src/operators/misc/cfa_masks.py (its
function definitions plus its import), the namespace a star-import makes
available to cfa_operator.py. -/
def cfa_masks_source_defs : List String :=
  ["get_filter_response", "get_rgbp_bands",
   "get_bayer_GRBG_mask", "get_bayer_RGGB_mask", "get_quad_mask",
   "get_sparse_3_mask", "get_kodak_mask", "get_sony_mask",
   "get_chakrabarti_mask", "get_honda_mask", "get_kaizu_mask",
   "get_yamagami_mask", "get_gindele_mask", "get_hamilton_mask",
   "get_luo_mask", "get_wang_mask", "get_yamanaka_mask", "get_lukak_mask"]

/-- Translation of cfa_operator.__init__: the string-equality dispatch of
the source.  The branches for 'bayer_VRBV' and 'bayer_RVVB' call
get_bayer_mask and get_bayer_bis_mask, names that appear nowhere in
cfa_masks_source_defs nor anywhere else in the sources, so in Python those
branches raise NameError; this is embedded as InitError.nameError.  An
unmatched pattern name falls through the chain with no else branch, so the
mask attribute stays unset and the base-class constructor still runs,
recording input_shape and output_shape = input_shape[:-1]. -/
def cfa_operator_init (cfa : String) (input_shape : ℕ × ℕ × ℕ) (spectral_stencil : List ℚ)
    (filters : String) (nm : Option String) : Except InitError cfa_operator :=
  let name := resolve_name nm
  let out := (input_shape.1, input_shape.2.1)
  if cfa = "bayer_VRBV" then .error (.nameError "get_bayer_mask")
  else if cfa = "bayer_RVVB" then .error (.nameError "get_bayer_bis_mask")
  else if cfa = "quad_bayer" then
    match get_quad_mask input_shape spectral_stencil filters with
    | .ok m => .ok ⟨cfa, name, some m, input_shape, out⟩
    | .error e => .error (.lookupError e)
  else if cfa = "sparse_3" then
    match get_sparse_3_mask input_shape spectral_stencil filters with
    | .ok m => .ok ⟨cfa, name, some m, input_shape, out⟩
    | .error e => .error (.lookupError e)
  else if cfa = "kodak" then
    match get_kodak_mask input_shape spectral_stencil filters with
    | .ok m => .ok ⟨cfa, name, some m, input_shape, out⟩
    | .error e => .error (.lookupError e)
  else if cfa = "sony" then
    match get_sony_mask input_shape spectral_stencil filters with
    | .ok m => .ok ⟨cfa, name, some m, input_shape, out⟩
    | .error e => .error (.lookupError e)
  else .ok ⟨cfa, name, none, input_shape, out⟩

/-- Spectral depth of the mask of a construction result, when both exist. -/
def maskDepth (r : Except InitError cfa_operator) : Option ℕ :=
  match r with
  | .ok op => op.cfa_mask.map Arr3.d2
  | .error _ => none

/-- C6: over the Bayer RGGB layout, with any red/green/blue response
vectors (the one-hot dirac responses in particular), the pixel at (0,0)
carries red, (0,1) and (1,0) carry green, (1,1) carries blue, and over the
whole 4-by-4 grid the 2-by-2 block repeats: pixel (r,c) equals pixel
(r mod 2, c mod 2). -/
theorem C6_bayer_RGGB_layout_4x4 (rf gf bf : ℕ → ℚ) :
    (∀ k, get_bayer_RGGB_layout rf gf bf 0 0 k = rf k) ∧
    (∀ k, get_bayer_RGGB_layout rf gf bf 0 1 k = gf k) ∧
    (∀ k, get_bayer_RGGB_layout rf gf bf 1 0 k = gf k) ∧
    (∀ k, get_bayer_RGGB_layout rf gf bf 1 1 k = bf k) ∧
    (∀ r c, r < 4 → c < 4 → ∀ k,
      get_bayer_RGGB_layout rf gf bf r c k = get_bayer_RGGB_layout rf gf bf (r % 2) (c % 2) k) := by
  refine ⟨fun k => rfl, fun k => rfl, fun k => rfl, fun k => rfl, ?_⟩
  intro r c hr hc k
  interval_cases r <;> interval_cases c <;>
    simp [get_bayer_RGGB_layout, buildMask, applyAssign, hitsB]

/-- C6 witness: the theorem applied to the concrete one-hot dirac
responses, together with a sample evaluation. -/
theorem C6_bayer_RGGB_layout_4x4_witness :
    (∀ k, get_bayer_RGGB_layout (fun k => if k = 0 then 1 else 0)
        (fun k => if k = 1 then 1 else 0) (fun k => if k = 2 then 1 else 0) 0 0 k
        = if k = 0 then 1 else 0) ∧
    (∀ k, get_bayer_RGGB_layout (fun k => if k = 0 then 1 else 0)
        (fun k => if k = 1 then 1 else 0) (fun k => if k = 2 then 1 else 0) 0 1 k
        = if k = 1 then 1 else 0) ∧
    (∀ k, get_bayer_RGGB_layout (fun k => if k = 0 then 1 else 0)
        (fun k => if k = 1 then 1 else 0) (fun k => if k = 2 then 1 else 0) 1 0 k
        = if k = 1 then 1 else 0) ∧
    (∀ k, get_bayer_RGGB_layout (fun k => if k = 0 then 1 else 0)
        (fun k => if k = 1 then 1 else 0) (fun k => if k = 2 then 1 else 0) 1 1 k
        = if k = 2 then 1 else 0) ∧
    (∀ r c, r < 4 → c < 4 → ∀ k,
      get_bayer_RGGB_layout (fun k => if k = 0 then 1 else 0)
          (fun k => if k = 1 then 1 else 0) (fun k => if k = 2 then 1 else 0) r c k
        = get_bayer_RGGB_layout (fun k => if k = 0 then 1 else 0)
            (fun k => if k = 1 then 1 else 0) (fun k => if k = 2 then 1 else 0) (r % 2) (c % 2) k) :=
  C6_bayer_RGGB_layout_4x4 _ _ _

/-- C10: constructing with pattern name bayer_VRBV or bayer_RVVB always
fails with an unresolved-name error, because the dispatch calls
get_bayer_mask and get_bayer_bis_mask, neither of which is defined in the
mask module (which defines get_bayer_GRBG_mask and get_bayer_RGGB_mask
instead); no mask is built and no configuration error is raised. -/
theorem C10_bayer_VRBV_RVVB_name_error (input_shape : ℕ × ℕ × ℕ) (stencil : List ℚ)
    (filters : String) (nm : Option String) :
    cfa_operator_init "bayer_VRBV" input_shape stencil filters nm
        = .error (.nameError "get_bayer_mask") ∧
    cfa_operator_init "bayer_RVVB" input_shape stencil filters nm
        = .error (.nameError "get_bayer_bis_mask") ∧
    "get_bayer_mask" ∉ cfa_masks_source_defs ∧
    "get_bayer_bis_mask" ∉ cfa_masks_source_defs ∧
    "get_bayer_GRBG_mask" ∈ cfa_masks_source_defs ∧
    "get_bayer_RGGB_mask" ∈ cfa_masks_source_defs :=
  ⟨rfl, rfl, by decide, by decide, by decide, by decide⟩

/-- C7 counterexample: constructing with the unknown pattern name
'not_a_cfa' does not fail; it returns an operator whose mask attribute was
never assigned, contradicting the claim that construction raises a
configuration error. -/
theorem C7_counterexample_unknown_pattern_constructs :
    cfa_operator_init "not_a_cfa" (4, 4, 3) [400, 500, 600] "dirac" none
      = .ok ⟨"not_a_cfa", "CFA", none, (4, 4, 3), (4, 4)⟩ := rfl

/-- C7 amended: for every pattern name outside the six dispatched names,
construction raises no error at all: the dispatch chain has no else
branch, so the constructor completes with the mask attribute unset (and
consequently no mask tensor is allocated). -/
theorem C7_amended_unknown_pattern_silent (cfa : String) (input_shape : ℕ × ℕ × ℕ)
    (stencil : List ℚ) (filters : String) (nm : Option String)
    (h : cfa ∉ ["bayer_VRBV", "bayer_RVVB", "quad_bayer", "sparse_3", "kodak", "sony"]) :
    cfa_operator_init cfa input_shape stencil filters nm
      = .ok ⟨cfa, resolve_name nm, none, input_shape, (input_shape.1, input_shape.2.1)⟩ := by
  simp only [List.mem_cons, List.not_mem_nil, or_false, not_or] at h
  obtain ⟨h1, h2, h3, h4, h5, h6⟩ := h
  simp [cfa_operator_init, h1, h2, h3, h4, h5, h6]

/-- C7 amended witness at the pattern name of the claim. -/
theorem C7_amended_unknown_pattern_silent_witness :
    "not_a_cfa" ∉ ["bayer_VRBV", "bayer_RVVB", "quad_bayer", "sparse_3", "kodak", "sony"] ∧
    cfa_operator_init "not_a_cfa" (4, 4, 3) [400, 500, 600] "dirac" (some "tag")
      = .ok ⟨"not_a_cfa", "tag", none, (4, 4, 3), (4, 4)⟩ :=
  ⟨by decide,
    C7_amended_unknown_pattern_silent "not_a_cfa" (4, 4, 3) [400, 500, 600] "dirac"
      (some "tag") (by decide)⟩

/-- C8 counterexample: constructing quad_bayer with input_shape (4,4,3)
but a spectral stencil of length 2 does not fail: construction succeeds
and the built mask has spectral depth 2, not the 3 announced by
input_shape, contradicting the claim that construction raises a
shape-error. -/
theorem C8_counterexample_stencil_mismatch_constructs :
    (cfa_operator_init "quad_bayer" (4, 4, 3) [400, 500] "dirac" none).isOk = true ∧
    maskDepth (cfa_operator_init "quad_bayer" (4, 4, 3) [400, 500] "dirac" none) = some 2 ∧
    (2 : ℕ) ≠ 3 :=
  ⟨rfl, rfl, by decide⟩

/-- C8 amended: construction performs no check of the stencil length
against the channel count of input_shape: for each of the four dispatched
catalog patterns, with the dirac response source, construction succeeds
for a stencil of any length and the built mask has spatial size taken
from input_shape and spectral depth exactly len(stencil) (neither
truncated nor padded to C). -/
theorem C8_amended_no_stencil_length_check (cfa : String) (input_shape : ℕ × ℕ × ℕ)
    (stencil : List ℚ) (nm : Option String)
    (h : cfa ∈ ["quad_bayer", "sparse_3", "kodak", "sony"]) :
    ∃ op m, cfa_operator_init cfa input_shape stencil "dirac" nm = .ok op ∧
      op.cfa_mask = some m ∧ m.d0 = input_shape.1 ∧ m.d1 = input_shape.2.1 ∧
      m.d2 = stencil.length := by
  simp only [List.mem_cons, List.not_mem_nil, or_false] at h
  rcases h with rfl | rfl | rfl | rfl
  · exact ⟨_, _, rfl, rfl, rfl, rfl, rfl⟩
  · exact ⟨_, _, rfl, rfl, rfl, rfl, rfl⟩
  · exact ⟨_, _, rfl, rfl, rfl, rfl, rfl⟩
  · exact ⟨_, _, rfl, rfl, rfl, rfl, rfl⟩

/-- C8 amended witness at quad_bayer with a length-2 stencil against C=3. -/
theorem C8_amended_no_stencil_length_check_witness :
    "quad_bayer" ∈ ["quad_bayer", "sparse_3", "kodak", "sony"] ∧
    (∃ op m, cfa_operator_init "quad_bayer" (4, 4, 3) [400, 500] "dirac" none = .ok op ∧
      op.cfa_mask = some m ∧ m.d0 = (4, 4, 3).1 ∧ m.d1 = (4, 4, 3).2.1 ∧
      m.d2 = ([400, 500] : List ℚ).length) :=
  ⟨by decide,
    C8_amended_no_stencil_length_check "quad_bayer" (4, 4, 3) [400, 500] none (by decide)⟩

/-
Sparse matrix representation.  The source builds a csr_array from COO
data: row indices np.repeat(np.arange(H*W), C) (entry n has row n / C),
column indices np.arange(H*W*C) (entry n has column n), and values
cfa_mask[row // W, row % W, n % C].  The triple list below is that COO
data; the CSR semantics of a matrix-vector product is the sum, over the
stored entries of a row (of a column for the transpose), of the entry
value times the vector coordinate at the entry's other index.
-/

/-- Stored (row, column, value) entries of cfa_operator.matrix. -/
def matrixEntries (H W C : ℕ) (m : ℕ → ℕ → ℕ → ℚ) : List (ℕ × ℕ × ℚ) :=
  (List.range (H * W * C)).map fun n => (n / C, n, m (n / C / W) (n / C % W) (n % C))

/-- Shape handed to csr_array: (N_ij, N_ijk) = (H*W, H*W*C). -/
def matrix_shape (H W C : ℕ) : ℕ × ℕ := (H * W, H * W * C)

/-- Row p of the matrix-vector product: sum of value * v(column) over the
stored entries whose row index is p. -/
def spRowMatVec (l : List (ℕ × ℕ × ℚ)) (v : ℕ → ℚ) (p : ℕ) : ℚ :=
  ((l.filter fun e => decide (e.1 = p)).map fun e => e.2.2 * v e.2.1).sum

/-- Row q of the transposed-matrix-vector product: sum of value * w(row)
over the stored entries whose column index is q. -/
def spColMatVec (l : List (ℕ × ℕ × ℚ)) (w : ℕ → ℚ) (q : ℕ) : ℚ :=
  ((l.filter fun e => decide (e.2.1 = q)).map fun e => e.2.2 * w e.1).sum

/-- Row-major flattening of an (H,W,C) cube with the spectral axis
fastest-varying: coordinate n = k + C*j + C*W*i holds x[i,j,k]. -/
def flat3 (W C : ℕ) (x : ℕ → ℕ → ℕ → ℚ) (n : ℕ) : ℚ :=
  x (n / (C * W)) (n / C % W) (n % C)

/-- Row-major flattening of an (H,W) image: coordinate p = j + W*i. -/
def flat2 (W : ℕ) (y : ℕ → ℕ → ℚ) (p : ℕ) : ℚ := y (p / W) (p % W)

lemma list_sum_map_range (g : ℕ → ℚ) : ∀ n, ((List.range n).map g).sum = ∑ k in Finset.range n, g k := by
  intro n
  induction n with
  | zero => rfl
  | succ n ih =>
      rw [List.range_succ, List.map_append, List.sum_append, Finset.sum_range_succ, ih]
      simp

lemma range_filter_div (C A p : ℕ) (hp : p < A) :
    (List.range (A * C)).filter (fun n => decide (n / C = p))
      = (List.range C).map (fun k => p * C + k) := by
  rcases Nat.eq_zero_or_pos C with rfl | hC
  · simp
  revert hp
  induction A with
  | zero => intro hp; exact absurd hp (Nat.not_lt_zero p)
  | succ A ih =>
      intro hp
      rw [Nat.succ_mul, List.range_add, List.filter_append]
      by_cases hpA : p < A
      · rw [ih hpA]
        have h2 : ((List.range C).map (fun i => A * C + i)).filter
            (fun n => decide (n / C = p)) = [] := by
          rw [List.filter_eq_nil_iff]
          intro e he
          rw [List.mem_map] at he
          obtain ⟨k, hk, rfl⟩ := he
          rw [List.mem_range] at hk
          have hdiv : (A * C + k) / C = A := by
            rw [Nat.add_comm, Nat.add_mul_div_right _ _ hC, Nat.div_eq_of_lt hk, Nat.zero_add]
          simp [hdiv]
          omega
        rw [h2, List.append_nil]
      · have hpe : p = A := by omega
        subst hpe
        have h1 : (List.range (p * C)).filter (fun n => decide (n / C = p)) = [] := by
          rw [List.filter_eq_nil_iff]
          intro e he
          rw [List.mem_range] at he
          have : e / C < p := (Nat.div_lt_iff_lt_mul hC).mpr he
          simp
          omega
        have h2 : ((List.range C).map (fun i => p * C + i)).filter
            (fun n => decide (n / C = p)) = (List.range C).map (fun i => p * C + i) := by
          rw [List.filter_eq_self]
          intro e he
          rw [List.mem_map] at he
          obtain ⟨k, hk, rfl⟩ := he
          rw [List.mem_range] at hk
          have hdiv : (p * C + k) / C = p := by
            rw [Nat.add_comm, Nat.add_mul_div_right _ _ hC, Nat.div_eq_of_lt hk, Nat.zero_add]
          simp [hdiv]
        rw [h1, h2, List.nil_append]

lemma range_filter_eq (N q : ℕ) :
    (List.range N).filter (fun n => decide (n = q)) = if q < N then [q] else [] := by
  induction N with
  | zero => simp
  | succ N ih =>
      rw [List.range_succ, List.filter_append, ih]
      by_cases h1 : q < N
      · have h2 : q < N + 1 := by omega
        have h3 : ¬ (N = q) := by omega
        simp [h1, h2, h3]
      · by_cases h2 : q = N
        · subst h2
          simp [h1]
        · have h3 : ¬ (q < N + 1) := by omega
          simp [h1, h2, h3, Ne.symm h2]

lemma matrixEntries_filter_row (H W C : ℕ) (m : ℕ → ℕ → ℕ → ℚ) (p : ℕ) (hp : p < H * W) :
    (matrixEntries H W C m).filter (fun e => decide (e.1 = p))
      = (List.range C).map (fun k => (p, p * C + k, m (p / W) (p % W) k)) := by
  rw [matrixEntries, List.filter_map]
  rw [show ((fun e : ℕ × ℕ × ℚ => decide (e.1 = p)) ∘
      (fun n => (n / C, n, m (n / C / W) (n / C % W) (n % C))))
      = (fun n => decide (n / C = p)) from rfl]
  rw [range_filter_div C (H * W) p hp, List.map_map]
  refine List.map_congr_left fun k hk => ?_
  rw [List.mem_range] at hk
  have hC : 0 < C := by omega
  have hdiv : (p * C + k) / C = p := by
    rw [Nat.add_comm, Nat.add_mul_div_right _ _ hC, Nat.div_eq_of_lt hk, Nat.zero_add]
  have hmod : (p * C + k) % C = k := by
    rw [Nat.add_comm, Nat.add_mul_mod_self_right, Nat.mod_eq_of_lt hk]
  simp [Function.comp, hdiv, hmod]

lemma matrixEntries_filter_col (H W C : ℕ) (m : ℕ → ℕ → ℕ → ℚ) (q : ℕ) :
    (matrixEntries H W C m).filter (fun e => decide (e.2.1 = q))
      = if q < H * W * C then [(q / C, q, m (q / C / W) (q / C % W) (q % C))] else [] := by
  rw [matrixEntries, List.filter_map]
  rw [show ((fun e : ℕ × ℕ × ℚ => decide (e.2.1 = q)) ∘
      (fun n => (n / C, n, m (n / C / W) (n / C % W) (n % C))))
      = (fun n => decide (n = q)) from rfl]
  rw [range_filter_eq]
  by_cases h : q < H * W * C <;> simp [h]

lemma flat_coord_facts (p k C W : ℕ) (hk : k < C) (hW : 0 < W) :
    (p * C + k) / C = p ∧ (p * C + k) % C = k ∧ (p * C + k) / (C * W) = p / W := by
  have hC : 0 < C := by omega
  have h1 : (p * C + k) / C = p := by
    rw [Nat.add_comm, Nat.add_mul_div_right _ _ hC, Nat.div_eq_of_lt hk, Nat.zero_add]
  have h2 : (p * C + k) % C = k := by
    rw [Nat.add_comm, Nat.add_mul_mod_self_right, Nat.mod_eq_of_lt hk]
  refine ⟨h1, h2, ?_⟩
  have hCW : 0 < C * W := Nat.mul_pos hC hW
  have e : p * C + k = (C * (p % W) + k) + (p / W) * (C * W) := by
    have h := Nat.div_add_mod p W
    calc p * C + k = (W * (p / W) + p % W) * C + k := by rw [h]
      _ = (C * (p % W) + k) + (p / W) * (C * W) := by ring
  have hlt : C * (p % W) + k < C * W := by
    have hmw : p % W < W := Nat.mod_lt p hW
    calc C * (p % W) + k < C * (p % W) + C := by omega
      _ = C * (p % W + 1) := by ring
      _ ≤ C * W := Nat.mul_le_mul_left C (by omega)
  rw [e, Nat.add_mul_div_right _ _ hCW, Nat.div_eq_of_lt hlt, Nat.zero_add]

/-- C4: for a mask of shape (H,W,C), the sparse matrix has shape
(H*W, H*W*C); for every output row p = j + W*i its stored entries are
exactly the C entries at columns k + C*j + C*W*i with values mask[i,j,k];
and every stored entry of the matrix is of that form for some in-range
(i,j,k), so no entry lies outside these positions. -/
theorem C4_matrix_row_structure (H W C : ℕ) (mask : Arr3) (i j : ℕ)
    (hm : dims3 mask = (H, W, C)) (hi : i < H) (hj : j < W) :
    matrix_shape H W C = (H * W, H * W * C) ∧
    (matrixEntries H W C mask.val).filter (fun e => decide (e.1 = j + W * i))
      = (List.range C).map (fun k => (j + W * i, k + C * j + C * W * i, mask.val i j k)) ∧
    ((matrixEntries H W C mask.val).filter (fun e => decide (e.1 = j + W * i))).length = C ∧
    (∀ e ∈ matrixEntries H W C mask.val, ∃ a b d, a < H ∧ b < W ∧ d < C ∧
      e = (b + W * a, d + C * b + C * W * a, mask.val a b d)) := by
  have hW : 0 < W := by omega
  have hrow : (matrixEntries H W C mask.val).filter (fun e => decide (e.1 = j + W * i))
      = (List.range C).map (fun k => (j + W * i, k + C * j + C * W * i, mask.val i j k)) := by
    have hp : j + W * i < H * W := by
      calc j + W * i < W + W * i := by omega
        _ = W * (i + 1) := by ring
        _ ≤ W * H := Nat.mul_le_mul_left W (by omega)
        _ = H * W := Nat.mul_comm W H
    rw [matrixEntries_filter_row H W C mask.val _ hp]
    refine List.map_congr_left fun k hk => ?_
    rw [List.mem_range] at hk
    have hdivW : (j + W * i) / W = i := by
      rw [Nat.mul_comm W i, Nat.add_mul_div_right _ _ hW, Nat.div_eq_of_lt hj, Nat.zero_add]
    have hmodW : (j + W * i) % W = j := by
      rw [Nat.mul_comm W i, Nat.add_mul_mod_self_right, Nat.mod_eq_of_lt hj]
    have hcol : (j + W * i) * C + k = k + C * j + C * W * i := by ring
    rw [hdivW, hmodW, hcol]
  refine ⟨rfl, hrow, ?_, ?_⟩
  · rw [hrow, List.length_map, List.length_range]
  · intro e he
    rw [matrixEntries, List.mem_map] at he
    obtain ⟨n, hn, rfl⟩ := he
    rw [List.mem_range] at hn
    rcases Nat.eq_zero_or_pos C with rfl | hC
    · rw [Nat.mul_zero] at hn
      omega
    have hnC : n / C < H * W := (Nat.div_lt_iff_lt_mul hC).mpr hn
    refine ⟨n / C / W, n / C % W, n % C, ?_, Nat.mod_lt _ hW, Nat.mod_lt _ hC, ?_⟩
    · exact (Nat.div_lt_iff_lt_mul hW).mpr hnC
    · have h1 : n / C = n / C % W + W * (n / C / W) := by
        have := Nat.div_add_mod (n / C) W
        omega
      have h2 : n = n % C + C * (n / C % W) + C * W * (n / C / W) := by
        have hd := Nat.div_add_mod n C
        have h3 : C * (n / C) = C * (n / C % W) + C * W * (n / C / W) := by
          calc C * (n / C) = C * (n / C % W + W * (n / C / W)) := by rw [← h1]
            _ = C * (n / C % W) + C * W * (n / C / W) := by ring
        omega
      rw [Prod.mk.injEq, Prod.mk.injEq]
      exact ⟨h1, h2, rfl⟩

/-- C4 witness at a concrete 1-by-2-by-2 mask, row p = 1 + 2*0. -/
theorem C4_matrix_row_structure_witness :
    dims3 ⟨1, 2, 2, fun i j k => (1 + i + 2 * j + 4 * k : ℚ)⟩ = (1, 2, 2) ∧ 0 < 1 ∧ 1 < 2 ∧
    (matrix_shape 1 2 2 = (1 * 2, 1 * 2 * 2) ∧
      (matrixEntries 1 2 2 (⟨1, 2, 2, fun i j k => (1 + i + 2 * j + 4 * k : ℚ)⟩ : Arr3).val).filter
          (fun e => decide (e.1 = 1 + 2 * 0))
        = (List.range 2).map (fun k => (1 + 2 * 0, k + 2 * 1 + 2 * 2 * 0,
            (⟨1, 2, 2, fun i j k => (1 + i + 2 * j + 4 * k : ℚ)⟩ : Arr3).val 0 1 k)) ∧
      ((matrixEntries 1 2 2 (⟨1, 2, 2, fun i j k => (1 + i + 2 * j + 4 * k : ℚ)⟩ : Arr3).val).filter
          (fun e => decide (e.1 = 1 + 2 * 0))).length = 2 ∧
      (∀ e ∈ matrixEntries 1 2 2 (⟨1, 2, 2, fun i j k => (1 + i + 2 * j + 4 * k : ℚ)⟩ : Arr3).val,
        ∃ a b d, a < 1 ∧ b < 2 ∧ d < 2 ∧
          e = (b + 2 * a, d + 2 * b + 2 * 2 * a,
            (⟨1, 2, 2, fun i j k => (1 + i + 2 * j + 4 * k : ℚ)⟩ : Arr3).val a b d))) :=
  ⟨rfl, by decide, by decide,
    C4_matrix_row_structure 1 2 2 _ 0 1 rfl (by decide) (by decide)⟩

/-- C3: for a mask of shape (H,W,C), an input cube x of shape (H,W,C) and a
mosaic image y of shape (H,W), the sparse matrix applied to x flattened
with the spectral axis fastest-varying gives direct(x) flattened row-major,
and the transposed matrix applied to the flattened y gives adjoint(y) under
the same flattening. -/
theorem C3_matrix_reproduces_direct_and_adjoint (H W C : ℕ) (mask x : Arr3) (y : Arr2)
    (hm : dims3 mask = (H, W, C)) (hx : dims3 x = (H, W, C)) (hy : dims2 y = (H, W)) :
    ∃ dx ay, direct mask x = some dx ∧ adjoint mask y = some ay ∧
      (∀ p, p < H * W →
        spRowMatVec (matrixEntries H W C mask.val) (flat3 W C x.val) p = flat2 W dx.val p) ∧
      (∀ n, n < H * W * C →
        spColMatVec (matrixEntries H W C mask.val) (flat2 W y.val) n = flat3 W C ay.val n) := by
  refine ⟨_, _, direct_eq mask x H W C hm hx, adjoint_eq mask y H W C hm hy, ?_, ?_⟩
  · intro p hp
    have hW : 0 < W := by
      rcases Nat.eq_zero_or_pos W with rfl | h
      · rw [Nat.mul_zero] at hp
        omega
      · exact h
    rw [spRowMatVec, matrixEntries_filter_row H W C mask.val p hp, List.map_map,
      list_sum_map_range, flat2]
    have hpW : p / W < H := (Nat.div_lt_iff_lt_mul hW).mpr hp
    have hpmW : p % W < W := Nat.mod_lt _ hW
    simp only [Function.comp, bidx_of_lt hpW, bidx_of_lt hpmW]
    refine Finset.sum_congr rfl fun k hk => ?_
    rw [Finset.mem_range] at hk
    obtain ⟨f1, f2, f3⟩ := flat_coord_facts p k C W hk hW
    rw [flat3, f1, f2, f3, bidx_of_lt hk]
    ring
  · intro n hn
    rcases Nat.eq_zero_or_pos C with rfl | hC
    · rw [Nat.mul_zero] at hn
      omega
    rcases Nat.eq_zero_or_pos W with rfl | hW
    · rw [Nat.mul_zero, Nat.zero_mul] at hn
      omega
    rw [spColMatVec, matrixEntries_filter_col H W C mask.val n, if_pos hn]
    simp only [List.map_cons, List.map_nil, List.sum_cons, List.sum_nil, add_zero]
    rw [flat2, flat3, ← Nat.div_div_eq_div_mul]
    have hnC : n / C < H * W := (Nat.div_lt_iff_lt_mul hC).mpr hn
    have hiH : n / C / W < H := (Nat.div_lt_iff_lt_mul hW).mpr hnC
    have hjW : n / C % W < W := Nat.mod_lt _ hW
    have hkC : n % C < C := Nat.mod_lt _ hC
    simp only [bidx_of_lt hiH, bidx_of_lt hjW, bidx_of_lt hkC]

/-- C3 witness at a concrete 1-by-2-by-2 operator. -/
theorem C3_matrix_reproduces_direct_and_adjoint_witness :
    dims3 ⟨1, 2, 2, fun i j k => (1 + i + 2 * j + 4 * k : ℚ)⟩ = (1, 2, 2) ∧
    dims3 ⟨1, 2, 2, fun i j k => (2 + i + j + k : ℚ)⟩ = (1, 2, 2) ∧
    dims2 ⟨1, 2, fun i j => (3 + i + 5 * j : ℚ)⟩ = (1, 2) ∧
    (∃ dx ay, direct ⟨1, 2, 2, fun i j k => (1 + i + 2 * j + 4 * k : ℚ)⟩
        ⟨1, 2, 2, fun i j k => (2 + i + j + k : ℚ)⟩ = some dx ∧
      adjoint ⟨1, 2, 2, fun i j k => (1 + i + 2 * j + 4 * k : ℚ)⟩
        ⟨1, 2, fun i j => (3 + i + 5 * j : ℚ)⟩ = some ay ∧
      (∀ p, p < 1 * 2 →
        spRowMatVec (matrixEntries 1 2 2 (⟨1, 2, 2, fun i j k => (1 + i + 2 * j + 4 * k : ℚ)⟩ : Arr3).val)
          (flat3 2 2 (⟨1, 2, 2, fun i j k => (2 + i + j + k : ℚ)⟩ : Arr3).val) p
          = flat2 2 dx.val p) ∧
      (∀ n, n < 1 * 2 * 2 →
        spColMatVec (matrixEntries 1 2 2 (⟨1, 2, 2, fun i j k => (1 + i + 2 * j + 4 * k : ℚ)⟩ : Arr3).val)
          (flat2 2 (⟨1, 2, fun i j => (3 + i + 5 * j : ℚ)⟩ : Arr2).val) n
          = flat3 2 2 ay.val n)) :=
  ⟨rfl, rfl, rfl,
    C3_matrix_reproduces_direct_and_adjoint 1 2 2 _ _ _ rfl rfl rfl⟩

/-- C9 counterexample: on the operator built for quad_bayer with
input_shape (2,2,3), calling direct with an input of shape (1,1,3) and
adjoint with an image of shape (1,1) — both different from the expected
shapes — raises no shape-error: numpy broadcasting applies and a result is
produced, contradicting the claim that every mismatched shape fails. -/
theorem C9_counterexample_mismatched_shape_produces_result :
    ∃ op m, cfa_operator_init "quad_bayer" (2, 2, 3) [400, 500, 600] "dirac" none = .ok op ∧
      op.cfa_mask = some m ∧ dims3 m = (2, 2, 3) ∧
      dims3 (⟨1, 1, 3, fun _ _ _ => 1⟩ : Arr3) ≠ (2, 2, 3) ∧
      (direct m ⟨1, 1, 3, fun _ _ _ => 1⟩).isSome = true ∧
      dims2 (⟨1, 1, fun _ _ => 1⟩ : Arr2) ≠ (2, 2) ∧
      (adjoint m ⟨1, 1, fun _ _ => 1⟩).isSome = true := by
  refine ⟨_, _, rfl, rfl, rfl, by decide, rfl, by decide, rfl⟩

/-- C9 amended: direct and adjoint perform no shape validation at all; for
rank-3 inputs and rank-2 images the call produces a result exactly when
the operand shapes are numpy-broadcast-compatible axis by axis with the
mask's shape (sizes equal or one of them 1), whether or not they equal
input_shape and output_shape; only non-broadcastable shapes fail, and the
failure carries no expected-versus-actual shape report. -/
theorem C9_amended_no_shape_check_broadcasting (mask x : Arr3) (y : Arr2) :
    ((direct mask x).isSome = true ↔
      (bdim x.d0 mask.d0).isSome = true ∧ (bdim x.d1 mask.d1).isSome = true ∧
        (bdim x.d2 mask.d2).isSome = true) ∧
    ((adjoint mask y).isSome = true ↔
      (bdim mask.d0 y.d0).isSome = true ∧ (bdim mask.d1 y.d1).isSome = true) := by
  constructor
  · rw [direct, mul3]
    cases h0 : bdim x.d0 mask.d0 <;> cases h1 : bdim x.d1 mask.d1 <;>
      cases h2 : bdim x.d2 mask.d2 <;> simp
  · rw [adjoint, mul3]
    cases h0 : bdim mask.d0 (newaxis2 y).d0 <;> cases h1 : bdim mask.d1 (newaxis2 y).d1 <;>
      simp [newaxis2, bdim_one_right] at h0 h1 ⊢ <;> simp [h0, h1, bdim_one_right]

/-- C5 witness: the coverage theorem applied at a concrete default, a
concrete assignment list and a concrete pixel. -/
theorem C5_every_pixel_is_one_response_witness :
    (∀ k, buildMask (fun _ => (7 : ℚ)) [⟨1, 0, 2, 2, fun _ => (1 : ℚ)⟩] 3 2 k
        = lastResp (fun _ => (7 : ℚ)) [⟨1, 0, 2, 2, fun _ => (1 : ℚ)⟩] 3 2 k) ∧
    ((([⟨1, 0, 2, 2, fun _ => (1 : ℚ)⟩] : List Assign).filter (fun a => hitsB a 3 2)) = [] →
      ∀ k, buildMask (fun _ => (7 : ℚ)) [⟨1, 0, 2, 2, fun _ => (1 : ℚ)⟩] 3 2 k = 7) ∧
    (∀ a, (([⟨1, 0, 2, 2, fun _ => (1 : ℚ)⟩] : List Assign).filter
        (fun a => hitsB a 3 2)).getLast? = some a →
      a ∈ ([⟨1, 0, 2, 2, fun _ => (1 : ℚ)⟩] : List Assign) ∧ hitsB a 3 2 = true ∧
        ∀ k, buildMask (fun _ => (7 : ℚ)) [⟨1, 0, 2, 2, fun _ => (1 : ℚ)⟩] 3 2 k = a.vec k) ∧
    ((∀ k, buildMask (fun _ => (7 : ℚ)) [⟨1, 0, 2, 2, fun _ => (1 : ℚ)⟩] 3 2 k = 7) ∨
      ∃ a ∈ ([⟨1, 0, 2, 2, fun _ => (1 : ℚ)⟩] : List Assign), hitsB a 3 2 = true ∧
        ∀ k, buildMask (fun _ => (7 : ℚ)) [⟨1, 0, 2, 2, fun _ => (1 : ℚ)⟩] 3 2 k = a.vec k) :=
  C5_every_pixel_is_one_response (fun _ => (7 : ℚ)) [⟨1, 0, 2, 2, fun _ => (1 : ℚ)⟩] 3 2
